import Mathlib

/-!
Verification of the Share-Paint real-time collaborative whiteboard.

This file gives a shallow embedding of the synchronization core of the
repository: the relay room store (server/index.js), the client-side sync
protocol (src/services/socketService.ts, src/hooks/useCanvas.ts) and the
client reconciliation engine and per-user undo/redo coordinator
(src/hooks/useCanvas.ts), together with theorems settling the frozen
claims about the natural-language specification.

Modelling conventions:
  - JavaScript Map objects are modelled as association lists with unique
    keys (insertion order preserved, set-in-place on existing keys), which
    matches the observable Map semantics used by the server.
  - JS numbers carrying wall-clock milliseconds are modelled as Int;
    point coordinates are modelled as Rat so that the interpolation
    arithmetic of useCanvas.draw is exact.  The two sqrt-based distance
    threshold comparisons in draw are embedded by comparing squared
    distances against squared thresholds, which is equivalent over the
    nonnegative reals.
  - Optional wire fields (isIncremental, basePointCount, isDeleted) that
    are absent on a JS object are represented by their JS-falsy defaults
    (false / none).  The reconciliation code re-forces the local isDeleted
    flag explicitly after every merge, so the merged record is insensitive
    to the absent-versus-false distinction for every field any modelled
    reader inspects.
  - Network emission is modelled by returning a list of Emit effects from
    each server handler; the user-facing French error string of the
    join-room handler is abstracted to the room id it interpolates.
-/

namespace SharePaint

/-- A 2-D point sample, src/types part: interface Point. -/
structure Point where
  x : Rat
  y : Rat
deriving DecidableEq

/-- A stroke record, interface DrawingData of the client types.  Optional
JS fields are carried with their falsy defaults. -/
structure DrawingData where
  id : String
  roomId : String
  userId : String
  tool : String
  color : String
  lineWidth : Int
  opacity : Rat
  hardness : Rat
  points : List Point
  startPoint : Option Point := none
  endPoint : Option Point := none
  timestamp : Int
  isIncremental : Bool := false
  basePointCount : Option Nat := none
  isDeleted : Bool := false
deriving DecidableEq

/-- A room member as stored by the server: the client-sent User record
spread together with the socket id (join-room handler). -/
structure UserRec where
  id : String
  color : String
  socketId : String := ""
deriving DecidableEq

/-- Server-side room state: rooms Map entry of server/index.js. -/
structure Room where
  id : String
  users : List (String × UserRec)
  drawings : List DrawingData
deriving DecidableEq

/-- The two module-level Maps of server/index.js: rooms and userRooms. -/
structure ServerState where
  rooms : List (String × Room)
  userRooms : List (String × String)
deriving DecidableEq

/-- Events the relay emits to clients (relay-to-client wire events). -/
inductive ServerEvent where
  | roomJoined (roomId : String) (users : List UserRec)
  | roomError (roomId : String)
  | userJoined (user : UserRec)
  | userLeft (userId : String)
  | userCursor (userId : String) (cursor : Point)
  | drawingData (d : DrawingData)
  | canvasClear
  | canvasUndo (userId : String) (drawingId : String)
  | canvasRedo (userId : String) (drawingId : String)
deriving DecidableEq

/-- One emission effect of a server handler.  The disconnect constructor
is never produced by any handler below; it is part of the effect type so
that absence of a forced disconnect is expressible. -/
inductive Emit where
  | toCaller (e : ServerEvent)
  | toOthers (roomId : String) (e : ServerEvent)
  | toRoom (roomId : String) (e : ServerEvent)
  | disconnect
deriving DecidableEq

/-- Client-side canvas state: the fields of CanvasState that the modelled
operations read or write. -/
structure CanvasState where
  drawings : List DrawingData
  currentTool : String
  isDrawing : Bool
  roomId : Option String
  userId : String
  userHistory : List String
  userHistoryIndex : Int
deriving DecidableEq

/-- Lookup in a JS Map modelled as an association list (Map.get). -/
def mapGet? {β : Type} : List (String × β) → String → Option β
  | [], _ => none
  | (k', v) :: rest, k => if k' == k then some v else mapGet? rest k

/-- Insert-or-replace in a JS Map (Map.set): replaces in place, keeping
insertion order, else appends. -/
def mapSet {β : Type} : List (String × β) → String → β → List (String × β)
  | [], k, v => [(k, v)]
  | (k', v') :: rest, k, v =>
    if k' == k then (k, v) :: rest else (k', v') :: mapSet rest k v

/-- Deletion from a JS Map (Map.delete). -/
def mapErase {β : Type} : List (String × β) → String → List (String × β)
  | [], _ => []
  | (k', v') :: rest, k => if k' == k then rest else (k', v') :: mapErase rest k

/-! Client reconciliation engine: handleDrawingData in useCanvas.ts. -/

/-- Merge one inbound DrawingData message with the (optional) existing
local record of the same id, following the three branches of
handleDrawingData and its final preservation of a local isDeleted flag.
The full-replace branch spreads the message over the existing record and
re-stamps the timestamp from the message; in this total-field model that
is the message record itself. -/
def mergeDrawing (existing : Option DrawingData) (data : DrawingData) : DrawingData :=
  let updated : DrawingData :=
    match existing with
    | some e =>
      if data.isIncremental then
        let baseCount := data.basePointCount.getD e.points.length
        { data with points := e.points.take baseCount ++ data.points }
      else
        data
    | none => data
  match existing with
  | some e => if e.isDeleted then { updated with isDeleted := true } else updated
  | none => updated

/-- Render order used when re-storing the drawings collection:
sort by ascending timestamp (the comparator a.timestamp - b.timestamp). -/
def byTimestamp (a b : DrawingData) : Prop := a.timestamp ≤ b.timestamp

instance : DecidableRel byTimestamp :=
  fun a b => inferInstanceAs (Decidable (a.timestamp ≤ b.timestamp))

/-- The handleDrawingData listener of useCanvas.ts: find the existing
record by id, merge, drop the old record, and keep the collection sorted
by timestamp (a stable by-timestamp sort; only the resulting ordering as
a permutation is relied upon below). -/
def handleDrawingData (st : CanvasState) (data : DrawingData) : CanvasState :=
  let existing := st.drawings.find? fun d => d.id == data.id
  let updated := mergeDrawing existing data
  let others := st.drawings.filter fun d => d.id != data.id
  { st with drawings := List.insertionSort byTimestamp (others ++ [updated]) }

/-! Client sync protocol, sender side: useCanvas.draw and the batching
layer of socketService. -/

/-- MIN_DISTANCE constant of useCanvas.ts. -/
def MIN_DISTANCE : Rat := 2

/-- Squared euclidean distance; calculateDistance compares its square
root against thresholds, embedded here as squared comparisons. -/
def distSq (p1 p2 : Point) : Rat :=
  (p2.x - p1.x) * (p2.x - p1.x) + (p2.y - p1.y) * (p2.y - p1.y)

/-- interpolatePoints of useCanvas.ts: steps evenly spaced points strictly
between p1 and p2 (parameter t = i / (steps + 1), i = 1..steps). -/
def interpolatePoints (p1 p2 : Point) (steps : Nat) : List Point :=
  (List.range steps).map fun i =>
    let t : Rat := (i + 1 : Nat) / ((steps : Rat) + 1)
    { x := p1.x + (p2.x - p1.x) * t, y := p1.y + (p2.y - p1.y) * t }

/-- The draw callback of useCanvas.ts, acting on the current authoritative
stroke record: reject a sample closer than MIN_DISTANCE to the last
captured point, interpolate two extra points when the gap exceeds three
times MIN_DISTANCE, and otherwise append.  Returns none when the sample
is dropped; the returned record is what is handed to sendDrawingData. -/
def draw (cur : DrawingData) (now : Int) (point : Point) : Option DrawingData :=
  match cur.points.getLast? with
  | some lastPoint =>
    if distSq lastPoint point < MIN_DISTANCE * MIN_DISTANCE then none
    else
      let pointsToAdd :=
        if (MIN_DISTANCE * 3) * (MIN_DISTANCE * 3) < distSq lastPoint point then
          interpolatePoints lastPoint point 2 ++ [point]
        else [point]
      some { cur with points := cur.points ++ pointsToAdd, timestamp := now }
  | none => some { cur with points := cur.points ++ [point], timestamp := now }

/-- One step of the buffer fold in socketService.optimizeDrawingData:
keep, per id, the version with strictly more points, or with equally many
points and a strictly newer timestamp; record each id at its first
occurrence to preserve chronological order. -/
def optimizeStep (acc : List (String × DrawingData) × List String)
    (data : DrawingData) : List (String × DrawingData) × List String :=
  match mapGet? acc.1 data.id with
  | none => (mapSet acc.1 data.id data, acc.2 ++ [data.id])
  | some existing =>
    if existing.points.length < data.points.length
        ∨ (data.points.length = existing.points.length
            ∧ existing.timestamp < data.timestamp) then
      (mapSet acc.1 data.id data, acc.2)
    else acc

/-- socketService.optimizeDrawingData: the messages actually emitted when
the drawing buffer is flushed. -/
def optimizeDrawingData (buffer : List DrawingData) : List DrawingData :=
  let folded := buffer.foldl optimizeStep ([], [])
  folded.2.filterMap fun i => mapGet? folded.1 i

/-! Per-user undo/redo coordinator (useCanvas.ts). -/

/-- The undo callback: when the history cursor is nonnegative, flag the
drawing at the cursor (when owned by this user) as deleted and decrement
the cursor.  The paired socket broadcast carries no local state change
and is omitted. -/
def undoStep (st : CanvasState) : CanvasState :=
  if 0 ≤ st.userHistoryIndex then
    match st.userHistory.get? st.userHistoryIndex.toNat with
    | some targetId =>
      { st with
        drawings := st.drawings.map fun d =>
          if d.id == targetId && d.userId == st.userId then
            { d with isDeleted := true }
          else d,
        userHistoryIndex := st.userHistoryIndex - 1 }
    | none => { st with userHistoryIndex := st.userHistoryIndex - 1 }
  else st

/-- The redo callback: when the cursor is left of the newest entry,
advance it and clear the deleted flag of the drawing it now points at. -/
def redoStep (st : CanvasState) : CanvasState :=
  if st.userHistoryIndex < (st.userHistory.length : Int) - 1 then
    let newIndex := st.userHistoryIndex + 1
    match st.userHistory.get? newIndex.toNat with
    | some targetId =>
      { st with
        drawings := st.drawings.map fun d =>
          if d.id == targetId && d.userId == st.userId then
            { d with isDeleted := false }
          else d,
        userHistoryIndex := newIndex }
    | none => { st with userHistoryIndex := newIndex }
  else st

/-- endDrawing of useCanvas.ts, given the currentDrawingRef contents: for
the user's own stroke, truncate the history after the cursor (splice at
cursor + 1), append the new stroke id, FIFO-evict beyond 100 entries, and
point the cursor at the newest entry.  The final resend for the line tool
is a network effect with no further state change and is omitted. -/
def endDrawing (st : CanvasState) (cur : Option DrawingData) : CanvasState :=
  match cur with
  | none => st
  | some fd =>
    if !st.isDrawing || st.roomId.isNone then st
    else if fd.userId == st.userId then
      let h1 :=
        if st.userHistoryIndex < (st.userHistory.length : Int) - 1 then
          st.userHistory.take (st.userHistoryIndex + 1).toNat
        else st.userHistory
      let h2 := h1 ++ [fd.id]
      let h3 := if 100 < h2.length then h2.drop 1 else h2
      { st with isDrawing := false, userHistory := h3,
                userHistoryIndex := (h3.length : Int) - 1 }
    else { st with isDrawing := false }

/-- handleRemoteUndo of useCanvas.ts: a canvas-undo event from another
user flags exactly the drawings matching both the event drawing id and
the event author; an event about this client's own id is ignored. -/
def handleRemoteUndo (st : CanvasState) (userId drawingId : String) : CanvasState :=
  if userId == st.userId then st
  else
    { st with
      drawings := st.drawings.map fun d =>
        if d.id == drawingId && d.userId == userId then
          { d with isDeleted := true }
        else d }

/-- handleRemoteRedo of useCanvas.ts, symmetric to handleRemoteUndo. -/
def handleRemoteRedo (st : CanvasState) (userId drawingId : String) : CanvasState :=
  if userId == st.userId then st
  else
    { st with
      drawings := st.drawings.map fun d =>
        if d.id == drawingId && d.userId == userId then
          { d with isDeleted := false }
        else d }

/-! Relay room store, server/index.js. -/

/-- The leaveRoom helper of server/index.js: when the room exists and
holds the user, remove the presence record and the reverse-lookup entry,
notify the other members, and delete the room when it became empty. -/
def leaveRoom (s : ServerState) (roomId userId : String) : ServerState × List Emit :=
  match mapGet? s.rooms roomId with
  | none => (s, [])
  | some room =>
    match mapGet? room.users userId with
    | none => (s, [])
    | some _ =>
      let users' := mapErase room.users userId
      let userRooms' := mapErase s.userRooms userId
      if users'.length == 0 then
        ({ rooms := mapErase s.rooms roomId, userRooms := userRooms' },
         [Emit.toOthers roomId (ServerEvent.userLeft userId)])
      else
        ({ rooms := mapSet s.rooms roomId { room with users := users' },
           userRooms := userRooms' },
         [Emit.toOthers roomId (ServerEvent.userLeft userId)])

/-- The join-room handler of server/index.js.  It first evicts the user
from any previously joined room, then checks room existence (emitting a
room-error without disconnecting when absent), and on success registers
presence, sends the member list and a full replay of every stored drawing
to the joiner, and announces the new member to the others. -/
def joinRoomHandler (s : ServerState) (sockId roomId : String) (user : UserRec) :
    ServerState × List Emit :=
  let prevStep : ServerState × List Emit :=
    match mapGet? s.userRooms user.id with
    | some prev => leaveRoom s prev user.id
    | none => (s, [])
  let s1 := prevStep.1
  match mapGet? s1.rooms roomId with
  | none => (s1, prevStep.2 ++ [Emit.toCaller (ServerEvent.roomError roomId)])
  | some room =>
    let stored : UserRec := { user with socketId := sockId }
    let room' := { room with users := mapSet room.users user.id stored }
    ({ rooms := mapSet s1.rooms roomId room',
       userRooms := mapSet s1.userRooms user.id roomId },
     prevStep.2
       ++ [Emit.toCaller (ServerEvent.roomJoined roomId (room'.users.map Prod.snd))]
       ++ room'.drawings.map (fun d => Emit.toCaller (ServerEvent.drawingData d))
       ++ [Emit.toOthers roomId (ServerEvent.userJoined user)])

/-- The merge step of the drawing-data handler on one room log: find the
first record with the incoming id; when the incoming points strictly
exceed it, replace the record and rebroadcast only the suffix as an
incremental message; when they do not, change nothing and stay silent;
when the id is unseen, append and rebroadcast the full message. -/
def ingestUpdate (data : DrawingData) : List DrawingData → List DrawingData × Option DrawingData
  | [] => ([data], some data)
  | d :: rest =>
    if d.id == data.id then
      if d.points.length < data.points.length then
        (data :: rest,
         some { data with
                  points := data.points.drop d.points.length,
                  isIncremental := true,
                  basePointCount := some d.points.length })
      else (d :: rest, none)
    else
      let p := ingestUpdate data rest
      (d :: p.1, p.2)

/-- The 30-minute TTL window of the drawing-data handler, in ms. -/
def ttlMs : Int := 30 * 60 * 1000

/-- The lazy TTL sweep run after every ingest: keep records whose
timestamp is strictly newer than now minus the TTL window. -/
def purgeOld (now : Int) (l : List DrawingData) : List DrawingData :=
  l.filter fun d => decide (now - ttlMs < d.timestamp)

/-- The drawing-data handler of server/index.js: ingest into the room the
message names, then purge TTL-expired strokes.  The optional broadcast
goes to the other room members. -/
def ingestDrawing (s : ServerState) (now : Int) (data : DrawingData) :
    ServerState × List Emit :=
  match mapGet? s.rooms data.roomId with
  | none => (s, [])
  | some room =>
    let p := ingestUpdate data room.drawings
    let room' : Room := { room with drawings := purgeOld now p.1 }
    ({ s with rooms := mapSet s.rooms data.roomId room' },
     match p.2 with
     | some m => [Emit.toOthers data.roomId (ServerEvent.drawingData m)]
     | none => [])

/-- The undo-canvas handler of server/index.js: a pure pass-through
broadcast; the stored drawing log is never touched. -/
def undoCanvasHandler (s : ServerState) (roomId userId drawingId : String) :
    ServerState × List Emit :=
  match mapGet? s.rooms roomId with
  | none => (s, [])
  | some room =>
    if (mapGet? room.users userId).isSome then
      (s, [Emit.toRoom roomId (ServerEvent.canvasUndo userId drawingId)])
    else (s, [])

/-- The redo-canvas handler, symmetric to undoCanvasHandler. -/
def redoCanvasHandler (s : ServerState) (roomId userId drawingId : String) :
    ServerState × List Emit :=
  match mapGet? s.rooms roomId with
  | none => (s, [])
  | some room =>
    if (mapGet? room.users userId).isSome then
      (s, [Emit.toRoom roomId (ServerEvent.canvasRedo userId drawingId)])
    else (s, [])

/-- Replacement of the first record carrying the id of the given message,
used to phrase what ingestUpdate does to a room log on the grow branch. -/
def replaceFirstById (data : DrawingData) : List DrawingData → List DrawingData
  | [] => [data]
  | d :: rest =>
    if d.id == data.id then data :: rest else d :: replaceFirstById data rest

/-! Concrete example values used by closed-form theorems and witnesses. -/

def exRoomIdA : String := "room-a"

def exRoomIdB : String := "room-b"

def exU1 : String := "user-1"

def exU2 : String := "user-2"

def exS1 : String := "stroke-1"

def exS2 : String := "stroke-2"

def exSock : String := "sock-1"

/-- A stroke record with fixed example style attributes. -/
def mkDrawing (i rm u : String) (pts : List Point) (ts : Int) : DrawingData :=
  { id := i, roomId := rm, userId := u, tool := "brush", color := "#40BFBF",
    lineWidth := 4, opacity := 1, hardness := 1, points := pts, timestamp := ts }

def pA : Point := { x := 0, y := 0 }

def pB : Point := { x := 3, y := 0 }

def pC : Point := { x := 6, y := 0 }

def pFar : Point := { x := 10, y := 0 }

def exUserRec1 : UserRec := { id := exU1, color := "#ff6b6b", socketId := exSock }

def exOld1 : DrawingData := mkDrawing exS1 exRoomIdA exU1 [pA] 0

def exNew1 : DrawingData := mkDrawing exS1 exRoomIdA exU1 [pA, pB] 5

def exRoom1 : Room :=
  { id := exRoomIdA, users := [(exU1, exUserRec1)], drawings := [exOld1] }

def exServer1 : ServerState :=
  { rooms := [(exRoomIdA, exRoom1)], userRooms := [(exU1, exRoomIdA)] }

def exCur2 : DrawingData := mkDrawing exS1 exRoomIdA exU1 [pA] 0

/-- The record draw produces from exCur2 and the accepted sample pB at
distance 3 (past the denoise threshold, short of the interpolation one):
the previous point list with pB appended. -/
def exMsg2 : DrawingData := mkDrawing exS1 exRoomIdA exU1 [pA, pB] 5

def exE3 : DrawingData := mkDrawing exS1 exRoomIdA exU1 [pA, pB] 0

def exSmall3 : DrawingData := mkDrawing exS1 exRoomIdA exU1 [pC] 5

def exSt3 : CanvasState :=
  { drawings := [exE3], currentTool := "brush", isDrawing := false,
    roomId := some exRoomIdA, userId := exU2, userHistory := [],
    userHistoryIndex := -1 }

/-- An incremental message for exS1 with basePointCount 2. -/
def exIncr3 : DrawingData :=
  { mkDrawing exS1 exRoomIdA exU1 [pC] 5 with
      isIncremental := true, basePointCount := some 2 }

def exDel4 : DrawingData :=
  { mkDrawing exS1 exRoomIdA exU1 [pA, pB] 0 with isDeleted := true }

def exSt4 : CanvasState :=
  { drawings := [exDel4], currentTool := "brush", isDrawing := false,
    roomId := some exRoomIdA, userId := exU2, userHistory := [],
    userHistoryIndex := -1 }

def exFull4 : DrawingData := mkDrawing exS1 exRoomIdA exU1 [pA, pB, pC] 7

def exStroke6 : DrawingData := mkDrawing exS1 exRoomIdA exU1 [pA, pB] 0

def exSt6 : CanvasState :=
  { drawings := [exStroke6], currentTool := "brush", isDrawing := false,
    roomId := some exRoomIdA, userId := exU1, userHistory := [exS1],
    userHistoryIndex := 0 }

def exFd7 : DrawingData := mkDrawing exS2 exRoomIdA exU1 [pC] 9

def exSt7 : CanvasState :=
  { drawings := [exStroke6, exFd7], currentTool := "brush", isDrawing := true,
    roomId := some exRoomIdA, userId := exU1, userHistory := [exS1],
    userHistoryIndex := -1 }

def exRoomA8 : Room :=
  { id := exRoomIdA, users := [(exU1, exUserRec1)], drawings := [] }

def exServer8 : ServerState :=
  { rooms := [(exRoomIdA, exRoomA8)], userRooms := [(exU1, exRoomIdA)] }

/-- The client-sent User payload for exU1 (no socket id yet). -/
def exUser8 : UserRec := { id := exU1, color := "#ff6b6b" }

def exServer9 : ServerState :=
  { rooms := [(exRoomIdA, exRoom1)], userRooms := [] }

def exJoiner9 : UserRec := { id := exU2, color := "#4ecdc4" }

def exSt9 : CanvasState :=
  { drawings := [], currentTool := "brush", isDrawing := false,
    roomId := some exRoomIdA, userId := exU2, userHistory := [],
    userHistoryIndex := -1 }

/-! General helper lemmas. -/

theorem find?_eq_of_unique {α : Type} (p : α → Bool) (a : α) :
    ∀ l : List α, a ∈ l → p a = true → (∀ b ∈ l, p b = true → b = a) →
      l.find? p = some a := by
  intro l
  induction l with
  | nil => intro h; cases h
  | cons x xs ih =>
    intro hmem hpa huniq
    by_cases hx : p x = true
    · have hxa : x = a := huniq x (List.mem_cons_self x xs) hx
      simp [List.find?_cons, hx, hxa, hpa]
    · have hxa : x ≠ a := fun h => hx (h ▸ hpa)
      have hmem' : a ∈ xs := by
        rcases List.mem_cons.mp hmem with h | h
        · exact absurd h.symm hxa
        · exact h
      have hxb : p x = false := by
        cases h : p x
        · rfl
        · exact absurd h hx
      rw [List.find?_cons, hxb]
      exact ih hmem' hpa fun b hb hpb => huniq b (List.mem_cons_of_mem _ hb) hpb

theorem filter_eq_self_of_forall {α : Type} (p : α → Bool) :
    ∀ l : List α, (∀ a ∈ l, p a = true) → l.filter p = l := by
  intro l
  induction l with
  | nil => intro _; rfl
  | cons x xs ih =>
    intro h
    have hx := h x (List.mem_cons_self x xs)
    simp [List.filter_cons, hx, ih fun a ha => h a (List.mem_cons_of_mem _ ha)]

theorem mapGet?_mapSet {β : Type} (k k' : String) (v : β) :
    ∀ m : List (String × β),
      mapGet? (mapSet m k v) k' = if k == k' then some v else mapGet? m k' := by
  intro m
  induction m with
  | nil => by_cases h : k = k' <;> simp [mapSet, mapGet?, h]
  | cons kv rest ih =>
    obtain ⟨k0, v0⟩ := kv
    by_cases h0 : k0 = k <;> by_cases h1 : k = k' <;>
      simp_all [mapSet, mapGet?, h0, h1, ih]

theorem mapSet_get_self {β : Type} (k : String) (v : β) :
    ∀ m : List (String × β), mapGet? m k = some v → mapSet m k v = m := by
  intro m
  induction m with
  | nil => intro h; simp [mapGet?] at h
  | cons kv rest ih =>
    obtain ⟨k0, v0⟩ := kv
    intro h
    by_cases h0 : k0 = k
    · have : v0 = v := by simpa [mapGet?, h0] using h
      simp [mapSet, h0, this]
    · have h' : mapGet? rest k = some v := by simpa [mapGet?, h0] using h
      simp [mapSet, h0, ih h']

theorem mapGet?_mem {β : Type} (k : String) (v : β) :
    ∀ m : List (String × β), mapGet? m k = some v → (k, v) ∈ m := by
  intro m
  induction m with
  | nil => intro h; simp [mapGet?] at h
  | cons kv rest ih =>
    obtain ⟨k0, v0⟩ := kv
    intro h
    by_cases h0 : k0 = k
    · have : v0 = v := by simpa [mapGet?, h0] using h
      subst h0; subst this; exact List.mem_cons_self _ _
    · have h' : mapGet? rest k = some v := by simpa [mapGet?, h0] using h
      exact List.mem_cons_of_mem _ (ih h')

theorem mem_mapSet {β : Type} (k : String) (v : β) (x : String × β) :
    ∀ m : List (String × β), x ∈ mapSet m k v → x = (k, v) ∨ x ∈ m := by
  intro m
  induction m with
  | nil => intro h; simpa [mapSet] using h
  | cons kv rest ih =>
    obtain ⟨k0, v0⟩ := kv
    intro h
    by_cases h0 : k0 = k
    · simp only [mapSet, h0] at h
      simp at h
      rcases h with h | h
      · exact Or.inl (by simp [h])
      · exact Or.inr (List.mem_cons_of_mem _ h)
    · simp only [mapSet, beq_iff_eq, h0, if_false] at h
      rcases List.mem_cons.mp h with h | h
      · exact Or.inr (h ▸ List.mem_cons_self _ _)
      · rcases ih h with h1 | h1
        · exact Or.inl h1
        · exact Or.inr (List.mem_cons_of_mem _ h1)

theorem mergeDrawing_id (e? : Option DrawingData) (m : DrawingData) :
    (mergeDrawing e? m).id = m.id := by
  cases e? with
  | none => rfl
  | some e =>
    by_cases hinc : m.isIncremental = true <;> by_cases hdel : e.isDeleted = true <;>
      simp [mergeDrawing, hinc, hdel]

/-- Reconciliation plumbing: after handleDrawingData, looking the message
id up in the collection yields exactly the merge of the previous record
with the message. -/
theorem handleDrawingData_find? (st : CanvasState) (m : DrawingData) :
    ((handleDrawingData st m).drawings.find? fun d => d.id == m.id) =
      some (mergeDrawing (st.drawings.find? fun d => d.id == m.id) m) := by
  have hperm := List.perm_insertionSort byTimestamp
    ((st.drawings.filter fun d => d.id != m.id)
      ++ [mergeDrawing (st.drawings.find? fun d => d.id == m.id) m])
  apply find?_eq_of_unique
  · exact hperm.mem_iff.mpr (by simp)
  · simp [mergeDrawing_id]
  · intro b hb hpb
    rcases List.mem_append.mp (hperm.subset hb) with h | h
    · have hne := List.of_mem_filter h
      simp only [bne_iff_ne, ne_eq] at hne
      have : b.id = m.id := by simpa using hpb
      exact absurd this hne
    · simpa using h

theorem ingestUpdate_grow (data : DrawingData) :
    ∀ (l : List DrawingData) (e : DrawingData),
      (l.find? fun d => d.id == data.id) = some e →
      e.points.length < data.points.length →
      ingestUpdate data l =
        (replaceFirstById data l,
         some { data with
                  points := data.points.drop e.points.length,
                  isIncremental := true,
                  basePointCount := some e.points.length }) := by
  intro l
  induction l with
  | nil => intro e h _; simp [List.find?] at h
  | cons d rest ih =>
    intro e hfind hlt
    by_cases hd : (d.id == data.id) = true
    · have hde : d = e := by simpa [List.find?_cons, hd] using hfind
      subst hde
      simp [ingestUpdate, replaceFirstById, hd, hlt]
    · have hdb : (d.id == data.id) = false := by
        cases h : (d.id == data.id)
        · rfl
        · exact absurd h hd
      have hfind' : (rest.find? fun x => x.id == data.id) = some e := by
        simpa [List.find?_cons, hdb] using hfind
      simp [ingestUpdate, replaceFirstById, hdb, ih e hfind' hlt]

theorem ingestUpdate_stale (data : DrawingData) :
    ∀ (l : List DrawingData) (e : DrawingData),
      (l.find? fun d => d.id == data.id) = some e →
      ¬ e.points.length < data.points.length →
      ingestUpdate data l = (l, none) := by
  intro l
  induction l with
  | nil => intro e h _; simp [List.find?] at h
  | cons d rest ih =>
    intro e hfind hnlt
    by_cases hd : (d.id == data.id) = true
    · have hde : d = e := by simpa [List.find?_cons, hd] using hfind
      subst hde
      simp [ingestUpdate, hd, hnlt]
    · have hdb : (d.id == data.id) = false := by
        cases h : (d.id == data.id)
        · rfl
        · exact absurd h hd
      have hfind' : (rest.find? fun x => x.id == data.id) = some e := by
        simpa [List.find?_cons, hdb] using hfind
      simp [ingestUpdate, hdb, ih e hfind' hnlt]

theorem mem_replaceFirstById (data : DrawingData) :
    ∀ (l : List DrawingData) (x : DrawingData),
      x ∈ replaceFirstById data l → x = data ∨ x ∈ l := by
  intro l
  induction l with
  | nil => intro x h; simpa [replaceFirstById] using h
  | cons d rest ih =>
    intro x h
    by_cases hd : (d.id == data.id) = true
    · simp only [replaceFirstById, hd, if_true] at h
      rcases List.mem_cons.mp h with h | h
      · exact Or.inl h
      · exact Or.inr (List.mem_cons_of_mem _ h)
    · simp only [replaceFirstById, hd, if_false] at h
      rcases List.mem_cons.mp h with h | h
      · exact Or.inr (h ▸ List.mem_cons_self _ _)
      · rcases ih x h with h1 | h1
        · exact Or.inl h1
        · exact Or.inr (List.mem_cons_of_mem _ h1)

theorem foldl_optimizeStep_mem :
    ∀ (buf : List DrawingData) (acc : List (String × DrawingData) × List String)
      (k : String) (v : DrawingData),
      (k, v) ∈ (buf.foldl optimizeStep acc).1 →
      (k, v) ∈ acc.1 ∨ v ∈ buf := by
  intro buf
  induction buf with
  | nil => intro acc k v h; exact Or.inl h
  | cons a rest ih =>
    intro acc k v h
    rcases ih (optimizeStep acc a) k v h with h1 | h1
    · unfold optimizeStep at h1
      cases hm : mapGet? acc.1 a.id with
      | none =>
        rw [hm] at h1
        rcases mem_mapSet _ _ _ _ h1 with h2 | h2
        · exact Or.inr (by simp [Prod.ext_iff] at h2; simp [h2])
        · exact Or.inl h2
      | some existing =>
        rw [hm] at h1
        by_cases hcond : existing.points.length < a.points.length
            ∨ (a.points.length = existing.points.length
                ∧ existing.timestamp < a.timestamp)
        · simp only [hcond, if_true] at h1
          rcases mem_mapSet _ _ _ _ h1 with h2 | h2
          · exact Or.inr (by simp [Prod.ext_iff] at h2; simp [h2])
          · exact Or.inl h2
        · simp only [hcond, if_false] at h1
          exact Or.inl h1
    · exact Or.inr (List.mem_cons_of_mem _ h1)

/-- Every message the flush of the drawing buffer emits is one of the
buffered records, unchanged: optimizeDrawingData only deduplicates. -/
theorem optimizeDrawingData_subset (buf : List DrawingData) (x : DrawingData)
    (hx : x ∈ optimizeDrawingData buf) : x ∈ buf := by
  unfold optimizeDrawingData at hx
  obtain ⟨i, _, hget⟩ := List.mem_filterMap.mp hx
  have hmem := mapGet?_mem _ _ _ hget
  rcases foldl_optimizeStep_mem buf ([], []) i x hmem with h | h
  · cases h
  · exact h

/-- Re-applying the same incremental message with an in-range base leaves
the merged record fixed. -/
theorem mergeDrawing_incremental_restable (e m : DrawingData) (b : Nat)
    (hinc : m.isIncremental = true) (hb : m.basePointCount = some b)
    (hble : b ≤ e.points.length) :
    mergeDrawing (some (mergeDrawing (some e) m)) m = mergeDrawing (some e) m := by
  have htake : (e.points.take b ++ m.points).take b = e.points.take b := by
    rw [List.take_append_of_le_length (by rw [List.length_take]; omega)]
    rw [List.take_take, min_self]
  by_cases hdel : e.isDeleted = true <;>
    by_cases hmdel : m.isDeleted = true <;>
      simp [mergeDrawing, hinc, hb, hdel, hmdel, htake]

theorem mapGet?_mapErase_none {β : Type} (k k' : String) :
    ∀ m : List (String × β), mapGet? m k' = none →
      mapGet? (mapErase m k) k' = none := by
  intro m
  induction m with
  | nil => intro _; rfl
  | cons kv rest ih =>
    obtain ⟨k0, v0⟩ := kv
    intro h
    by_cases h0 : k0 = k'
    · simp [mapGet?, h0] at h
    · have h' : mapGet? rest k' = none := by simpa [mapGet?, h0] using h
      by_cases h1 : k0 = k <;> simp [mapErase, mapGet?, h0, h1, ih h', h']

/-- Evicting a user from some room never makes an absent room appear. -/
theorem leaveRoom_rooms_none (s : ServerState) (r u k : String)
    (hk : mapGet? s.rooms k = none) :
    mapGet? (leaveRoom s r u).1.rooms k = none := by
  unfold leaveRoom
  split
  · exact hk
  next room hr =>
    split
    · exact hk
    next w hu =>
      have hrk : r ≠ k := fun h => by rw [h, hk] at hr; cases hr
      dsimp only
      split
      · exact mapGet?_mapErase_none r k s.rooms hk
      · dsimp only
        rw [mapGet?_mapSet]
        simp [hrk, hk]

/-- The emissions of an eviction are at most one user-left notification. -/
theorem leaveRoom_emits (s : ServerState) (r u : String) :
    (leaveRoom s r u).2 = []
      ∨ (leaveRoom s r u).2 = [Emit.toOthers r (ServerEvent.userLeft u)] := by
  unfold leaveRoom
  split
  · exact Or.inl rfl
  split
  · exact Or.inl rfl
  dsimp only
  split
  · exact Or.inr rfl
  · exact Or.inr rfl

/-- C1: when the incoming drawing-data message carries an id already in
the room log, ingestDrawing replaces the stored record with the incoming
one and rebroadcasts to the other room members an incremental message
with isIncremental true, basePointCount equal to the previously stored
length and points equal to the incoming suffix from that index, exactly
when the incoming length strictly exceeds the stored length; otherwise
the log and the broadcast are untouched.  The freshness hypotheses keep
the lazy TTL sweep, which runs after every ingest, from also purging old
strokes. -/
theorem ingestDrawing_seen_spec (s : ServerState) (now : Int) (data : DrawingData)
    (room : Room) (e : DrawingData)
    (hroom : mapGet? s.rooms data.roomId = some room)
    (hfind : (room.drawings.find? fun d => d.id == data.id) = some e)
    (hfresh : ∀ d ∈ room.drawings, now - ttlMs < d.timestamp)
    (hfreshd : now - ttlMs < data.timestamp) :
    (e.points.length < data.points.length →
      ingestDrawing s now data =
        ({ s with
             rooms := mapSet s.rooms data.roomId
               { room with drawings := replaceFirstById data room.drawings } },
         [Emit.toOthers data.roomId (ServerEvent.drawingData
            { data with
                points := data.points.drop e.points.length,
                isIncremental := true,
                basePointCount := some e.points.length })]))
    ∧ (¬ e.points.length < data.points.length →
        ingestDrawing s now data = (s, [])) := by
  constructor
  · intro hlt
    have hing := ingestUpdate_grow data room.drawings e hfind hlt
    have hpurge : purgeOld now (replaceFirstById data room.drawings) =
        replaceFirstById data room.drawings := by
      apply filter_eq_self_of_forall
      intro x hx
      rcases mem_replaceFirstById data room.drawings x hx with h | h
      · subst h; simp [hfreshd]
      · simp [hfresh x h]
    simp [ingestDrawing, hroom, hing, hpurge]
  · intro hnlt
    have hing := ingestUpdate_stale data room.drawings e hfind hnlt
    have hpurge : purgeOld now room.drawings = room.drawings := by
      apply filter_eq_self_of_forall
      intro x hx
      simp [hfresh x hx]
    have hset : mapSet s.rooms data.roomId room = s.rooms :=
      mapSet_get_self _ _ _ hroom
    simp [ingestDrawing, hroom, hing, hpurge, hset]

/-- C1 witness: a 1-point stored stroke grown to 2 points in a fresh
room; the grow branch of ingestDrawing_seen_spec applies. -/
theorem ingestDrawing_seen_spec_witness :
    exOld1.points.length < exNew1.points.length ∧
    ingestDrawing exServer1 6 exNew1 =
      ({ exServer1 with
           rooms := mapSet exServer1.rooms exNew1.roomId
             { exRoom1 with drawings := replaceFirstById exNew1 exRoom1.drawings } },
       [Emit.toOthers exNew1.roomId (ServerEvent.drawingData
          { exNew1 with
              points := exNew1.points.drop exOld1.points.length,
              isIncremental := true,
              basePointCount := some exOld1.points.length })]) :=
  ⟨by decide,
   (ingestDrawing_seen_spec exServer1 6 exNew1 exRoom1 exOld1
      (by decide) (by decide) (by decide) (by decide)).1 (by decide)⟩

/-- C2 counterexample: an accepted sample mid-stroke is handed to the
send layer as a message with isIncremental unset and with the full
cumulative point list (its head is the already-sent first point), and the
buffer flush emits it unchanged — the authoring client never produces an
incremental message. -/
theorem draw_emits_full_counterexample :
    draw exCur2 5 pB = some exMsg2 ∧
    optimizeDrawingData [exMsg2] = [exMsg2] ∧
    exMsg2.isIncremental = false ∧
    exMsg2.basePointCount = none ∧
    exMsg2.points.take 1 = exCur2.points ∧
    exMsg2.points.length = 2 := by
  have hlast : exCur2.points.getLast? = some pA := rfl
  have h1 : ¬ distSq pA pB < MIN_DISTANCE * MIN_DISTANCE := by
    norm_num [distSq, pA, pB, MIN_DISTANCE]
  have h2 : ¬ (MIN_DISTANCE * 3) * (MIN_DISTANCE * 3) < distSq pA pB := by
    norm_num [distSq, pA, pB, MIN_DISTANCE]
  have hdraw : draw exCur2 5 pB = some exMsg2 := by
    unfold draw
    rw [hlast]
    dsimp only
    rw [if_neg h1, if_neg h2]
    rfl
  exact ⟨hdraw, by decide, rfl, rfl, by decide, rfl⟩

/-- C2 amended: while a stroke is being drawn, each accepted sample makes
the authoring client send a full snapshot — a message with isIncremental
unset, no basePointCount, the same stroke id, and the entire cumulative
points array extending the previous one — and the batching flush emits
only such buffered records unchanged; incremental encoding happens on the
relay, not the client. -/
theorem draw_sends_full_snapshot (cur : DrawingData) (now : Int) (p : Point)
    (m : DrawingData)
    (hinc : cur.isIncremental = false) (hbase : cur.basePointCount = none)
    (hdraw : draw cur now p = some m) :
    (m.isIncremental = false ∧ m.basePointCount = none ∧ m.id = cur.id ∧
      ∃ added, added ≠ [] ∧ m.points = cur.points ++ added) ∧
    ∀ (buf : List DrawingData) (x : DrawingData),
      x ∈ optimizeDrawingData buf → x ∈ buf := by
  constructor
  · unfold draw at hdraw
    cases hlast : cur.points.getLast? with
    | none =>
      rw [hlast] at hdraw
      dsimp only at hdraw
      injection hdraw with h
      subst h
      exact ⟨hinc, hbase, rfl, [p], by simp, rfl⟩
    | some lastPoint =>
      rw [hlast] at hdraw
      dsimp only at hdraw
      by_cases hclose : distSq lastPoint p < MIN_DISTANCE * MIN_DISTANCE
      · rw [if_pos hclose] at hdraw; cases hdraw
      · rw [if_neg hclose] at hdraw
        by_cases hfarc : (MIN_DISTANCE * 3) * (MIN_DISTANCE * 3) < distSq lastPoint p
        · rw [if_pos hfarc] at hdraw
          injection hdraw with h
          subst h
          exact ⟨hinc, hbase, rfl, interpolatePoints lastPoint p 2 ++ [p],
            by simp, rfl⟩
        · rw [if_neg hfarc] at hdraw
          injection hdraw with h
          subst h
          exact ⟨hinc, hbase, rfl, [p], by simp, rfl⟩
  · intro buf x hx
    exact optimizeDrawingData_subset buf x hx

/-- C2 amended witness at the concrete inputs of the counterexample. -/
theorem draw_sends_full_snapshot_witness :
    exCur2.isIncremental = false ∧ exCur2.basePointCount = none ∧
    draw exCur2 5 pB = some exMsg2 ∧
    exMsg2.isIncremental = false ∧ exMsg2.basePointCount = none := by
  have hlast : exCur2.points.getLast? = some pA := rfl
  have h1 : ¬ distSq pA pB < MIN_DISTANCE * MIN_DISTANCE := by
    norm_num [distSq, pA, pB, MIN_DISTANCE]
  have h2 : ¬ (MIN_DISTANCE * 3) * (MIN_DISTANCE * 3) < distSq pA pB := by
    norm_num [distSq, pA, pB, MIN_DISTANCE]
  have hdraw : draw exCur2 5 pB = some exMsg2 := by
    unfold draw
    rw [hlast]
    dsimp only
    rw [if_neg h1, if_neg h2]
    rfl
  exact ⟨rfl, rfl, hdraw,
    (draw_sends_full_snapshot exCur2 5 pB exMsg2 rfl rfl hdraw).1.1,
    (draw_sends_full_snapshot exCur2 5 pB exMsg2 rfl rfl hdraw).1.2.1⟩

/-- C3 counterexample: a subsequent full drawing-data message carrying
fewer points than the local record replaces the points array outright,
shrinking it from 2 points to 1. -/
theorem full_message_truncates_counterexample :
    (exSt3.drawings.map fun d => d.points.length) = [2] ∧
    exSmall3.isIncremental = false ∧
    ((handleDrawingData exSt3 exSmall3).drawings.map fun d => d.points.length)
      = [1] := by
  decide

/-- C3 amended: for a stroke id known locally, applying an incremental
message whose basePointCount is at least the locally stored points.length
(the shape the relay produces against a stored copy at least as long as
the local one) never decreases that points.length; a full replace, or an
incremental with a smaller base, can shrink it. -/
theorem incremental_high_base_no_truncate (st : CanvasState) (m e : DrawingData)
    (b : Nat)
    (hfind : (st.drawings.find? fun d => d.id == m.id) = some e)
    (hinc : m.isIncremental = true) (hb : m.basePointCount = some b)
    (hble : e.points.length ≤ b) :
    ∃ u, ((handleDrawingData st m).drawings.find? fun d => d.id == m.id) = some u ∧
      e.points.length ≤ u.points.length := by
  refine ⟨mergeDrawing (some e) m, ?_, ?_⟩
  · rw [handleDrawingData_find?, hfind]
  · by_cases hdel : e.isDeleted = true <;>
      simp [mergeDrawing, hinc, hb, hdel, List.length_take] <;> omega

/-- C3 amended witness: an incremental with base 2 on a 2-point record. -/
theorem incremental_high_base_no_truncate_witness :
    (exSt3.drawings.find? fun d => d.id == exIncr3.id) = some exE3 ∧
    exIncr3.isIncremental = true ∧ exIncr3.basePointCount = some 2 ∧
    exE3.points.length ≤ 2 ∧
    ∃ u, ((handleDrawingData exSt3 exIncr3).drawings.find?
        fun d => d.id == exIncr3.id) = some u ∧
      exE3.points.length ≤ u.points.length :=
  ⟨by decide, rfl, rfl, by decide,
   incremental_high_base_no_truncate exSt3 exIncr3 exE3 2 (by decide) rfl rfl
     (by decide)⟩

/-- C4: a full (non-incremental) message arriving for a locally undone
stroke merges into a record that still carries isDeleted = true — a full
message never resurrects a locally-undone stroke. -/
theorem full_message_preserves_deleted (st : CanvasState) (m e : DrawingData)
    (hfind : (st.drawings.find? fun d => d.id == m.id) = some e)
    (hdel : e.isDeleted = true) (hfull : m.isIncremental = false) :
    ∃ u, ((handleDrawingData st m).drawings.find? fun d => d.id == m.id) = some u ∧
      u.isDeleted = true := by
  refine ⟨mergeDrawing (some e) m, ?_, ?_⟩
  · rw [handleDrawingData_find?, hfind]
  · simp [mergeDrawing, hfull, hdel]

/-- C4 witness: a deleted 2-point record meeting a 3-point full resend. -/
theorem full_message_preserves_deleted_witness :
    (exSt4.drawings.find? fun d => d.id == exFull4.id) = some exDel4 ∧
    exDel4.isDeleted = true ∧ exFull4.isIncremental = false ∧
    ∃ u, ((handleDrawingData exSt4 exFull4).drawings.find?
        fun d => d.id == exFull4.id) = some u ∧ u.isDeleted = true :=
  ⟨by decide, rfl, rfl,
   full_message_preserves_deleted exSt4 exFull4 exDel4 (by decide) rfl rfl⟩

/-- C5: with a local record at least basePointCount points long, applying
the same incremental message twice through the reconciliation engine
stores the same record — and in particular the same points array — as
applying it once: the length-guarded slice keeps the second application
from duplicating points. -/
theorem incremental_reapply_idempotent (st : CanvasState) (m e : DrawingData)
    (b : Nat)
    (hfind : (st.drawings.find? fun d => d.id == m.id) = some e)
    (hinc : m.isIncremental = true) (hb : m.basePointCount = some b)
    (hble : b ≤ e.points.length) :
    ∃ u, ((handleDrawingData st m).drawings.find? fun d => d.id == m.id) = some u ∧
      ((handleDrawingData (handleDrawingData st m) m).drawings.find?
          fun d => d.id == m.id) = some u := by
  refine ⟨mergeDrawing (some e) m, ?_, ?_⟩
  · rw [handleDrawingData_find?, hfind]
  · rw [handleDrawingData_find?, handleDrawingData_find?, hfind,
      mergeDrawing_incremental_restable e m b hinc hb hble]

/-- C6: on a state with a valid nonnegative history cursor, undo followed
by redo returns the cursor to its original index, leaves the history
untouched, and the only change to the drawings is that the targeted own
stroke ends with isDeleted = false — its points and style attributes, and
every other drawing, are unchanged. -/
theorem undo_redo_round_trip (st : CanvasState) (tid : String)
    (h0 : 0 ≤ st.userHistoryIndex)
    (ht : st.userHistory.get? st.userHistoryIndex.toNat = some tid) :
    redoStep (undoStep st) =
      { st with drawings := st.drawings.map fun d =>
          if d.id == tid && d.userId == st.userId then
            { d with isDeleted := false }
          else d } := by
  obtain ⟨hlt, -⟩ := List.get?_eq_some.mp ht
  have hnn : (st.userHistoryIndex.toNat : Int) = st.userHistoryIndex :=
    Int.toNat_of_nonneg h0
  have hIlt : st.userHistoryIndex < (st.userHistory.length : Int) := by
    rw [← hnn]
    exact_mod_cast hlt
  have hundo : undoStep st =
      { st with
          drawings := st.drawings.map fun d =>
            if d.id == tid && d.userId == st.userId then
              { d with isDeleted := true }
            else d,
          userHistoryIndex := st.userHistoryIndex - 1 } := by
    unfold undoStep
    rw [if_pos h0, ht]
  rw [hundo]
  have hcond : st.userHistoryIndex - 1 < (st.userHistory.length : Int) - 1 := by
    omega
  have hadd : st.userHistoryIndex - 1 + 1 = st.userHistoryIndex := by omega
  unfold redoStep
  dsimp only
  rw [if_pos hcond, hadd, ht]
  dsimp only
  rw [List.map_map]
  congr 1
  apply List.map_congr_left
  intro d _
  by_cases hc : (d.id == tid && d.userId == st.userId) = true
  · simp [Function.comp, hc]
  · simp [Function.comp, hc]

/-- C6 witness: a one-stroke history with the cursor at its entry. -/
theorem undo_redo_round_trip_witness :
    (0 : Int) ≤ exSt6.userHistoryIndex ∧
    exSt6.userHistory.get? exSt6.userHistoryIndex.toNat = some exS1 ∧
    redoStep (undoStep exSt6) =
      { exSt6 with drawings := exSt6.drawings.map fun d =>
          if d.id == exS1 && d.userId == exSt6.userId then
            { d with isDeleted := false }
          else d } :=
  ⟨by decide, by decide, undo_redo_round_trip exSt6 exS1 (by decide) (by decide)⟩

/-- C7: completing a new own stroke while the cursor sits left of the
newest history entry truncates the history after the cursor before
appending the new id, leaves the cursor at history.length - 1, and makes
redo a no-op, so the undone strokes are unreachable. -/
theorem endDrawing_truncates_history (st : CanvasState) (fd : DrawingData)
    (hdr : st.isDrawing = true) (hrm : st.roomId.isNone = false)
    (hown : fd.userId = st.userId)
    (hcur : st.userHistoryIndex < (st.userHistory.length : Int) - 1)
    (hbound : st.userHistory.length ≤ 100) :
    (endDrawing st (some fd)).userHistory =
        st.userHistory.take (st.userHistoryIndex + 1).toNat ++ [fd.id] ∧
    (endDrawing st (some fd)).userHistoryIndex =
        ((endDrawing st (some fd)).userHistory.length : Int) - 1 ∧
    redoStep (endDrawing st (some fd)) = endDrawing st (some fd) := by
  have hshift :
      ¬ 100 < (st.userHistory.take (st.userHistoryIndex + 1).toNat ++ [fd.id]).length := by
    simp only [List.length_append, List.length_take, List.length_singleton]
    omega
  have hED : endDrawing st (some fd) =
      { st with
          isDrawing := false,
          userHistory := st.userHistory.take (st.userHistoryIndex + 1).toNat ++ [fd.id],
          userHistoryIndex :=
            (((st.userHistory.take (st.userHistoryIndex + 1).toNat ++ [fd.id]).length : Int)) - 1 } := by
    have hg1 : (!st.isDrawing || st.roomId.isNone) = false := by
      simp [hdr, hrm]
    have hg2 : (fd.userId == st.userId) = true := by simp [hown]
    simp only [endDrawing, hg1, hg2, Bool.false_eq_true, if_false, if_true]
    rw [if_pos hcur, if_neg hshift]
  refine ⟨by rw [hED], by rw [hED], ?_⟩
  rw [hED]
  simp [redoStep]

/-- C7 witness: one undone stroke in the history, cursor at -1, then a
new stroke is completed. -/
theorem endDrawing_truncates_history_witness :
    exSt7.isDrawing = true ∧ exSt7.roomId.isNone = false ∧
    exFd7.userId = exSt7.userId ∧
    exSt7.userHistoryIndex < (exSt7.userHistory.length : Int) - 1 ∧
    exSt7.userHistory.length ≤ 100 ∧
    ((endDrawing exSt7 (some exFd7)).userHistory =
        exSt7.userHistory.take (exSt7.userHistoryIndex + 1).toNat ++ [exFd7.id] ∧
      (endDrawing exSt7 (some exFd7)).userHistoryIndex =
        (((endDrawing exSt7 (some exFd7)).userHistory.length : Int)) - 1 ∧
      redoStep (endDrawing exSt7 (some exFd7)) = endDrawing exSt7 (some exFd7)) :=
  ⟨rfl, rfl, rfl, by decide, by decide,
   endDrawing_truncates_history exSt7 exFd7 rfl rfl rfl (by decide) (by decide)⟩

/-- C8 counterexample: joining the absent room-b while a member of room-a
notifies the caller of the error, but the relay state does change — the
user has already been evicted from room-a, and room-a (now empty) has
been deleted — contradicting that no relay room state changes on a
failed join. -/
theorem joinRoom_absent_evicts_counterexample :
    mapGet? exServer8.rooms exRoomIdB = none ∧
    mapGet? exServer8.userRooms exU1 = some exRoomIdA ∧
    mapGet? exServer8.rooms exRoomIdA = some exRoomA8 ∧
    Emit.toCaller (ServerEvent.roomError exRoomIdB)
        ∈ (joinRoomHandler exServer8 exSock exRoomIdB exUser8).2 ∧
    mapGet? (joinRoomHandler exServer8 exSock exRoomIdB exUser8).1.userRooms exU1
        = none ∧
    mapGet? (joinRoomHandler exServer8 exSock exRoomIdB exUser8).1.rooms exRoomIdA
        = none := by
  decide

/-- C8 amended: a join-room request for an absent room id notifies the
joining client with a room-error and never disconnects, and no room is
created under the requested id; but eviction from a previously joined
room happens before the existence check, so the relay state after a
failed join equals the state after that eviction (a fresh user leaves the
state unchanged). -/
theorem joinRoom_absent_room_spec (s : ServerState) (sockId roomId : String)
    (user : UserRec)
    (habs : mapGet? s.rooms roomId = none) :
    Emit.toCaller (ServerEvent.roomError roomId)
        ∈ (joinRoomHandler s sockId roomId user).2 ∧
    Emit.disconnect ∉ (joinRoomHandler s sockId roomId user).2 ∧
    mapGet? (joinRoomHandler s sockId roomId user).1.rooms roomId = none ∧
    (mapGet? s.userRooms user.id = none →
      (joinRoomHandler s sockId roomId user).1 = s) ∧
    ∀ prev, mapGet? s.userRooms user.id = some prev →
      (joinRoomHandler s sockId roomId user).1 = (leaveRoom s prev user.id).1 := by
  cases hprev : mapGet? s.userRooms user.id with
  | none =>
    have hJ : joinRoomHandler s sockId roomId user =
        (s, [Emit.toCaller (ServerEvent.roomError roomId)]) := by
      unfold joinRoomHandler
      rw [hprev]
      dsimp only
      rw [habs]
      dsimp only
      simp
    rw [hJ]
    exact ⟨by simp, by simp, habs, fun _ => rfl,
      fun prev hp => Option.noConfusion hp⟩
  | some prev0 =>
    have hnone1 : mapGet? (leaveRoom s prev0 user.id).1.rooms roomId = none :=
      leaveRoom_rooms_none s prev0 user.id roomId habs
    have hJ : joinRoomHandler s sockId roomId user =
        ((leaveRoom s prev0 user.id).1,
         (leaveRoom s prev0 user.id).2
           ++ [Emit.toCaller (ServerEvent.roomError roomId)]) := by
      unfold joinRoomHandler
      rw [hprev]
      dsimp only
      rw [hnone1]
    rw [hJ]
    refine ⟨by simp, ?_, hnone1, ?_, ?_⟩
    · rcases leaveRoom_emits s prev0 user.id with h | h <;> simp [h]
    · intro h; exact Option.noConfusion h
    · intro prev hp
      injection hp with hp
      subst hp
      rfl

/-- C8 amended witness: the concrete failed join of the counterexample
state, showing the eviction equation concretely. -/
theorem joinRoom_absent_room_spec_witness :
    mapGet? exServer8.rooms exRoomIdB = none ∧
    Emit.toCaller (ServerEvent.roomError exRoomIdB)
        ∈ (joinRoomHandler exServer8 exSock exRoomIdB exUser8).2 ∧
    Emit.disconnect ∉ (joinRoomHandler exServer8 exSock exRoomIdB exUser8).2 ∧
    mapGet? (joinRoomHandler exServer8 exSock exRoomIdB exUser8).1.rooms exRoomIdB
        = none ∧
    (joinRoomHandler exServer8 exSock exRoomIdB exUser8).1 =
      (leaveRoom exServer8 exRoomIdA exU1).1 :=
  ⟨by decide,
   (joinRoom_absent_room_spec exServer8 exSock exRoomIdB exUser8 (by decide)).1,
   (joinRoom_absent_room_spec exServer8 exSock exRoomIdB exUser8 (by decide)).2.1,
   (joinRoom_absent_room_spec exServer8 exSock exRoomIdB exUser8 (by decide)).2.2.1,
   (joinRoom_absent_room_spec exServer8 exSock exRoomIdB exUser8 (by decide)).2.2.2.2
     exRoomIdA (by decide)⟩

/-- C9: the undo-canvas handler never mutates relay state, the join-time
replay emits every stored stroke verbatim to the joiner, and a joiner
holding no prior record stores the replayed record exactly as sent — so a
stroke whose author undid it is still held as present (isDeleted false,
given the stored log never carries the deleted flag) by a later joiner. -/
theorem undo_gap_replay_present (s : ServerState) (roomId uid did sockId : String)
    (u : UserRec) (room : Room) (d : DrawingData) (st : CanvasState)
    (hprev : mapGet? s.userRooms u.id = none)
    (hroom : mapGet? s.rooms roomId = some room)
    (hd : d ∈ room.drawings)
    (hnd : d.isDeleted = false)
    (hlocal : (st.drawings.find? fun x => x.id == d.id) = none) :
    (undoCanvasHandler s roomId uid did).1 = s ∧
    Emit.toCaller (ServerEvent.drawingData d)
        ∈ (joinRoomHandler s sockId roomId u).2 ∧
    ((handleDrawingData st d).drawings.find? fun x => x.id == d.id) = some d ∧
    d.isDeleted = false := by
  refine ⟨?_, ?_, ?_, hnd⟩
  · unfold undoCanvasHandler
    split
    · rfl
    · split <;> rfl
  · unfold joinRoomHandler
    rw [hprev]
    dsimp only
    rw [hroom]
    dsimp only
    simp only [List.mem_append, List.mem_map, List.mem_singleton]
    exact Or.inl (Or.inr ⟨d, hd, rfl⟩)
  · rw [handleDrawingData_find?, hlocal]
    rfl

/-- C9 witness: a stored non-deleted stroke replayed to a fresh joiner
after an undo event passed through the relay. -/
theorem undo_gap_replay_present_witness :
    exOld1 ∈ exRoom1.drawings ∧ exOld1.isDeleted = false ∧
    ((undoCanvasHandler exServer9 exRoomIdA exU1 exS1).1 = exServer9 ∧
      Emit.toCaller (ServerEvent.drawingData exOld1)
          ∈ (joinRoomHandler exServer9 exSock exRoomIdA exJoiner9).2 ∧
      ((handleDrawingData exSt9 exOld1).drawings.find? fun x => x.id == exOld1.id)
          = some exOld1 ∧
      exOld1.isDeleted = false) :=
  ⟨by decide, rfl,
   undo_gap_replay_present exServer9 exRoomIdA exU1 exS1 exSock exJoiner9 exRoom1
     exOld1 exSt9 (by decide) (by decide) (by decide) rfl (by decide)⟩

/-- C10: a received canvas-undo (resp. canvas-redo) event sets isDeleted
to true (resp. false) exactly on the drawings matching both the event
drawing id and the event author; every other drawing, the history, and
the cursor are unchanged, and an event carrying the client's own user id
changes nothing at all. -/
theorem remote_undo_redo_frame (st : CanvasState) (uid did : String) :
    (uid = st.userId →
      handleRemoteUndo st uid did = st ∧ handleRemoteRedo st uid did = st) ∧
    (uid ≠ st.userId →
      (handleRemoteUndo st uid did).userHistory = st.userHistory ∧
      (handleRemoteUndo st uid did).userHistoryIndex = st.userHistoryIndex ∧
      (handleRemoteRedo st uid did).userHistory = st.userHistory ∧
      (handleRemoteRedo st uid did).userHistoryIndex = st.userHistoryIndex ∧
      ∀ (k : Nat) (d : DrawingData), st.drawings[k]? = some d →
        ((d.id = did ∧ d.userId = uid) →
          (handleRemoteUndo st uid did).drawings[k]?
              = some { d with isDeleted := true } ∧
          (handleRemoteRedo st uid did).drawings[k]?
              = some { d with isDeleted := false }) ∧
        (¬ (d.id = did ∧ d.userId = uid) →
          (handleRemoteUndo st uid did).drawings[k]? = some d ∧
          (handleRemoteRedo st uid did).drawings[k]? = some d)) := by
  constructor
  · intro h
    constructor <;> simp [handleRemoteUndo, handleRemoteRedo, h]
  · intro hne
    have hb : (uid == st.userId) = false := by simp [hne]
    refine ⟨by simp [handleRemoteUndo, hb], by simp [handleRemoteUndo, hb],
      by simp [handleRemoteRedo, hb], by simp [handleRemoteRedo, hb], ?_⟩
    intro k d hk
    constructor
    · rintro ⟨h1, h2⟩
      constructor <;>
        simp [handleRemoteUndo, handleRemoteRedo, hb, List.getElem?_map, hk, h1, h2]
    · intro hn
      constructor <;>
        simp [handleRemoteUndo, handleRemoteRedo, hb, List.getElem?_map, hk,
          Bool.and_eq_true, beq_iff_eq, hn]

/-- C10 witness: another user's undo event on their own stroke, observed
at a client that does not own it. -/
theorem remote_undo_redo_frame_witness :
    exU1 ≠ exSt3.userId ∧
    (handleRemoteUndo exSt3 exU1 exS1).userHistory = exSt3.userHistory ∧
    (handleRemoteUndo exSt3 exU1 exS1).userHistoryIndex = exSt3.userHistoryIndex :=
  ⟨by decide,
   ((remote_undo_redo_frame exSt3 exU1 exS1).2 (by decide)).1,
   ((remote_undo_redo_frame exSt3 exU1 exS1).2 (by decide)).2.1⟩

/-- C5 witness: the incremental with base 2 applied twice to the 2-point
record. -/
theorem incremental_reapply_idempotent_witness :
    (exSt3.drawings.find? fun d => d.id == exIncr3.id) = some exE3 ∧
    exIncr3.isIncremental = true ∧ exIncr3.basePointCount = some 2 ∧
    (2 : Nat) ≤ exE3.points.length ∧
    ∃ u, ((handleDrawingData exSt3 exIncr3).drawings.find?
        fun d => d.id == exIncr3.id) = some u ∧
      ((handleDrawingData (handleDrawingData exSt3 exIncr3) exIncr3).drawings.find?
          fun d => d.id == exIncr3.id) = some u :=
  ⟨by decide, rfl, rfl, by decide,
   incremental_reapply_idempotent exSt3 exIncr3 exE3 2 (by decide) rfl rfl
     (by decide)⟩

end SharePaint
